import Mathlib

/-!
Verification of the tunnel lifecycle manager (Go package `ssm` of
kube-ssm-proxy) against its natural-language specification.

The Go code is shallowly embedded: strings are `List Char`, the relevant
standard-library routines (`strings.Index`, `strings.Fields`,
`strings.Join`, `strings.TrimPrefix`, `strconv.Atoi`, `fmt.Sprintf("%d")`)
are modelled as executable Lean functions, and effectful operations
(signals, TCP probes, process launch) are modelled by explicit outcome
environments and event traces.
-/

set_option maxRecDepth 400000

namespace KubeSsmProxy

/-- Conversion from a Lean string literal to the `List Char` representation
used throughout the embedding. -/
def strL (s : String) : List Char := s.data

/-- The delimiters recognised by `extractParam` (Go: `s[i] == ',' || s[i] == ' '`). -/
def isDelim (c : Char) : Bool := c == ',' || c == ' '

/-- Whitespace as recognised by Go `strings.Fields` (for the characters that
actually occur in `ps` output). -/
def isWS (c : Char) : Bool := c == ' ' || c == '\t' || c == '\n' || c == '\r'

/-- One decimal digit as a character. -/
def digitChar (d : Nat) : Char :=
  match d with
  | 0 => '0' | 1 => '1' | 2 => '2' | 3 => '3' | 4 => '4'
  | 5 => '5' | 6 => '6' | 7 => '7' | 8 => '8' | 9 => '9'
  | _ => '*'

/-- Fuel-driven accumulator loop rendering a natural number in decimal,
most significant digit first (the core of `fmt.Sprintf("%d", n)`). -/
def toDecAux : Nat → Nat → List Char → List Char
  | 0, _, acc => acc
  | fuel + 1, n, acc =>
      if n < 10 then digitChar (n % 10) :: acc
      else toDecAux fuel (n / 10) (digitChar (n % 10) :: acc)

/-- Decimal rendering of a natural number, as produced by Go `%d`. -/
def natToDec (n : Nat) : List Char := toDecAux (n + 1) n []

/-- Parse an all-digit string to a natural number; `none` on empty or
non-digit input (the digit-consuming core of `strconv.Atoi`). -/
def parseDigitsNat (s : List Char) : Option Nat :=
  if s.isEmpty then none
  else if s.all (fun c => c.isDigit) then
    some (s.foldl (fun a c => a * 10 + (c.toNat - 48)) 0)
  else none

/-- Model of Go `strconv.Atoi`: optional sign followed by digits. -/
def goAtoi (s : List Char) : Option Int :=
  match s with
  | [] => none
  | c :: rest =>
      if c = '+' then (parseDigitsNat rest).map (fun n => (n : Int))
      else if c = '-' then (parseDigitsNat rest).map (fun n => -(n : Int))
      else (parseDigitsNat (c :: rest)).map (fun n => (n : Int))

/-- Scan for the first position where `key` is a prefix of the remaining
input (helper for the model of Go `strings.Index`). -/
def goIndexAux (key : List Char) : List Char → Option Nat
  | [] => if key.isPrefixOf [] then some 0 else none
  | c :: t => if key.isPrefixOf (c :: t) then some 0
              else (goIndexAux key t).map (· + 1)

/-- Model of Go `strings.Index s key`: index of the first occurrence of
`key` in `s`, or `none` (Go: -1) when absent. -/
def goIndex (s key : List Char) : Option Nat := goIndexAux key s

/-- Model of Go `strings.Contains`. -/
def goContains (s key : List Char) : Bool := (goIndex s key).isSome

/-- Model of Go `strings.TrimPrefix`. -/
def goTrimPrefix (s pre : List Char) : List Char :=
  if pre.isPrefixOf s then s.drop pre.length else s

/-- `extractParam` (process.go): pull the value of a `key=value` parameter
out of a comma/space-delimited parameter string.  The key is located by a
raw first-occurrence substring search; the value extends until the next
comma or space (or end of string). -/
def extractParam (s key : List Char) : List Char :=
  match goIndex s key with
  | none => []
  | some idx => ((s.drop (idx + key.length)).takeWhile (fun c => !isDelim c))

/-- Accumulator loop of the `strings.Fields` model. -/
def goFieldsAux : List Char → List Char → List (List Char)
  | cur, [] => if cur.isEmpty then [] else [cur.reverse]
  | cur, c :: rest =>
      if isWS c then
        if cur.isEmpty then goFieldsAux [] rest
        else cur.reverse :: goFieldsAux [] rest
      else goFieldsAux (c :: cur) rest

/-- Model of Go `strings.Fields`: split around runs of whitespace. -/
def goFields (s : List Char) : List (List Char) := goFieldsAux [] s

/-- Model of Go `strings.Join fields " "`. -/
def joinSpace : List (List Char) → List Char
  | [] => []
  | [x] => x
  | x :: y :: rest => x ++ ' ' :: joinSpace (y :: rest)

/-- The parameter key `"host="`. -/
def hostKey : List Char := strL "host="

/-- The parameter key `"portNumber="`. -/
def portKey : List Char := strL "portNumber="

/-- The parameter key `"localPortNumber="`. -/
def localKey : List Char := strL "localPortNumber="

/-- `Forward` (process.go): one believed-live SSM port-forwarding process. -/
structure Forward where
  pid : Int
  localPort : Int
  targetHost : List Char
  targetPort : Int
  deriving DecidableEq, Repr

/-- `parseLine` (process.go): extract PID, local port, target host and
target port from one `ps` output line; `none` models the `ok = false`
return. -/
def parseLine (line : List Char) : Option Forward :=
  match goFields line with
  | [] => none
  | [_] => none
  | f0 :: f1 :: fs =>
    match goAtoi f0 with
    | none => none
    | some pid =>
      let rest := joinSpace (f1 :: fs)
      let host := extractParam rest hostKey
      let portStr := extractParam rest portKey
      let localStr := extractParam rest localKey
      if host.isEmpty || localStr.isEmpty then none
      else
        match goAtoi localStr with
        | none => none
        | some localPort =>
          let targetPort : Int :=
            if portStr.isEmpty then 443
            else match goAtoi portStr with
              | some p => p
              | none => 443
          some ⟨pid, localPort, host, targetPort⟩

/-- The 4-way substring retention filter of `ListForwards` (process.go):
a `ps` line is kept only if it contains all four of `"aws"`, `"ssm"`,
`"start-session"` and `"AWS-StartPortForwardingSession"`. -/
def lineFilter (line : List Char) : Bool :=
  goContains line (strL "aws") && goContains line (strL "ssm") &&
  goContains line (strL "start-session") &&
  goContains line (strL "AWS-StartPortForwardingSession")

/-- The loop body of `FindAvailablePort` (process.go), with the remaining
number of loop iterations as fuel (`port <= 65535` holds exactly while the
fuel is positive, starting from port 49152 with fuel 16384).
`reserved` models the `reserved` map; `listening` models the
`IsPortListening` TCP probe as a predicate on ports. -/
def findAvailablePortAux (reserved listening : Nat → Bool) : Nat → Nat → Option Nat
  | _, 0 => none
  | port, fuel + 1 =>
      if reserved port then findAvailablePortAux reserved listening (port + 1) fuel
      else if !listening port then some port
      else findAvailablePortAux reserved listening (port + 1) fuel

/-- `FindAvailablePort` (process.go): first port in [49152, 65535] that is
neither reserved nor listening; `none` models the no-port-available error. -/
def FindAvailablePort (reserved listening : Nat → Bool) : Option Nat :=
  findAvailablePortAux reserved listening 49152 16384

/-- Outcomes of the OS calls made by `killProcess` (ssm.go): whether
`os.FindProcess` succeeds, whether the SIGTERM delivery succeeds, and
whether the unconditional SIGKILL delivery succeeds. -/
structure KillEnv where
  findOk : Bool
  termOk : Bool
  killOk : Bool
  deriving DecidableEq

/-- `killProcess` (ssm.go): SIGTERM, 2s grace, then unconditional SIGKILL;
returns `false` only when the lookup or the SIGTERM fails. -/
def killProcess (e : KillEnv) : Bool :=
  if !e.findOk then false
  else if !e.termOk then false
  else true

/-- Result of the readiness poll loop of `StartForward` (ssm.go). -/
inductive PollResult where
  | ready
  | died
  | timeout
  deriving DecidableEq

/-- The poll loop of `StartForward` (ssm.go) with its iteration count:
for each attempt (2s apart), first check `IsPortListening` and return the
port on success, then non-blockingly check the exit observer and abort on
child exit.  `listening a` / `exitedBy a` give the outcome of the two
checks at attempt `a`.  Returns the result together with the number of
attempts actually consumed. -/
def pollAuxSteps (listening exitedBy : Nat → Bool) : Nat → Nat → PollResult × Nat
  | _, 0 => (.timeout, 0)
  | attempt, fuel + 1 =>
      if listening attempt then (.ready, 1)
      else if exitedBy attempt then (.died, 1)
      else
        let r := pollAuxSteps listening exitedBy (attempt + 1) fuel
        (r.1, r.2 + 1)

/-- The full poll budget of `StartForward`: 60 attempts starting at 1. -/
def pollForward (listening exitedBy : Nat → Bool) : PollResult × Nat :=
  pollAuxSteps listening exitedBy 1 60

/-- The grouping loop of `PruneDuplicates` (ssm.go):
`byTarget[f.TargetHost] = append(byTarget[f.TargetHost], f)`, modelled on
an insertion-ordered association list. -/
def addToGroup : List (List Char × List Forward) → Forward → List (List Char × List Forward)
  | [], f => [(f.targetHost, [f])]
  | (h, items) :: rest, f =>
      if h = f.targetHost then (h, items ++ [f]) :: rest
      else (h, items) :: addToGroup rest f

/-- The `byTarget` map of `PruneDuplicates` (ssm.go). -/
def byTarget (fs : List Forward) : List (List Char × List Forward) :=
  fs.foldl addToGroup []

/-- `PruneDuplicates` (ssm.go), given the scanned forwards and the success
outcome of `killProcess` per PID: for each target-host group with more
than one member, kill every member except the first, counting successful
kills. -/
def PruneDuplicates (fs : List Forward) (kill : Int → Bool) : Nat :=
  (byTarget fs).foldl
    (fun total e =>
      if e.2.length ≤ 1 then total
      else total + (e.2.drop 1).countP (fun f => kill f.pid))
    0

/-- The forwards on which `PruneDuplicates` invokes `killProcess`, in
invocation order within each group. -/
def pruneVictims (fs : List Forward) : List Forward :=
  (byTarget fs).foldl
    (fun acc e => if e.2.length ≤ 1 then acc else acc ++ e.2.drop 1)
    []

/-- The parameter string built by `StartForward` (ssm.go):
`fmt.Sprintf("host=%s,portNumber=443,localPortNumber=%d", host, port)`. -/
def mkParams (host : List Char) (port : Nat) : List Char :=
  hostKey ++ host ++ ',' :: portKey ++ strL "443," ++ localKey ++ natToDec port

/-- Model of `filepath.Join` on two components. -/
def goJoin (a b : List Char) : List Char := a ++ '/' :: b

/-- `ssmLogDir` (ssm.go): `<home>/.cache/kube-ssm-proxy/logs` (the
directory is created with `os.MkdirAll` as a side effect, recorded as a
trace event in `startForward`). -/
def ssmLogDir (home : List Char) : List Char :=
  goJoin (goJoin (goJoin home (strL ".cache")) (strL "kube-ssm-proxy")) (strL "logs")

/-- The log file name built by `StartForward` (ssm.go):
`fmt.Sprintf("ssm-port-%d_%s.log", port, timestamp)`. -/
def logFileName (port : Nat) (timestamp : List Char) : List Char :=
  strL "ssm-port-" ++ natToDec port ++ '_' :: timestamp ++ strL ".log"

/-- The log file path of `StartForward` (ssm.go):
`filepath.Join(logDir, logFileName)`. -/
def logPath (home : List Char) (port : Nat) (timestamp : List Char) : List Char :=
  goJoin (ssmLogDir home) (logFileName port timestamp)

/-- Outcomes of the external world consulted by `StartForward` (ssm.go). -/
structure SFEnv where
  /-- allocation-time `IsPortListening` probe results -/
  listening : Nat → Bool
  /-- whether the caller passed a non-nil `markInactive` callback -/
  hasMarkCb : Bool
  /-- whether `os.Create` of the log file succeeds -/
  logCreateOk : Bool
  /-- whether `cmd.Start()` succeeds -/
  startOk : Bool
  /-- `IsPortListening` probe results per poll attempt -/
  pollListening : Nat → Bool
  /-- whether the exit observer has posted by poll attempt `a` -/
  exitedBy : Nat → Bool
  /-- contents of the log file as read back on failure -/
  logContent : List Char
  /-- PID of the launched child -/
  pid : Nat
  /-- launch timestamp as formatted into the log file name -/
  timestamp : List Char
  /-- `os.UserHomeDir()` -/
  home : List Char

/-- Externally visible events of one `StartForward` run, in program order. -/
inductive SFEvent where
  | markInactive (port : Nat)
  | mkdirAll (dir : List Char)
  | createLog (path : List Char)
  | launch (argv : List (List Char))
  deriving DecidableEq

/-- The `aws` argument vector built by `StartForward` (ssm.go). -/
def awsArgv (bastionID params profile region : List Char) : List (List Char) :=
  [strL "aws", strL "ssm", strL "start-session",
   strL "--target", bastionID,
   strL "--document-name", strL "AWS-StartPortForwardingSessionToRemoteHost",
   strL "--parameters", params,
   strL "--profile", profile,
   strL "--region", region]

/-- The error message of the early-exit branch of `StartForward` (ssm.go):
`fmt.Errorf("SSM process (PID %d) died. Log:\n%s", pid, logContent)`. -/
def diedMsg (pid : Nat) (logContent : List Char) : List Char :=
  strL "SSM process (PID " ++ natToDec pid ++ strL ") died. Log:\n" ++ logContent

/-- The timeout error message of `StartForward` (ssm.go). -/
def timeoutMsg (port : Nat) (logContent : List Char) : List Char :=
  strL "port " ++ natToDec port ++ strL " not listening after 120s. SSM log:\n" ++ logContent

/-- `StartForward` (ssm.go): allocate a port, mark stale registry entries
inactive, build the parameter string, create the log file, launch the
detached child, and poll for readiness.  Returns the result (allocated
port or error message) together with the trace of externally visible
events in program order. -/
def startForward (bastionID targetHost profile region : List Char)
    (reserved : Nat → Bool) (env : SFEnv) :
    Except (List Char) Nat × List SFEvent :=
  match FindAvailablePort reserved env.listening with
  | none => (.error (strL "no available port in range 49152-65535"), [])
  | some port =>
    let ev1 : List SFEvent := if env.hasMarkCb then [.markInactive port] else []
    let host := goTrimPrefix targetHost (strL "https://")
    let params := mkParams host port
    let dir := ssmLogDir env.home
    let path := logPath env.home port env.timestamp
    let ev2 := ev1 ++ [.mkdirAll dir, .createLog path]
    if !env.logCreateOk then (.error (strL "create ssm log file"), ev2)
    else
      let ev3 := ev2 ++ [.launch (awsArgv bastionID params profile region)]
      if !env.startOk then (.error (strL "start ssm session"), ev3)
      else
        match pollForward env.pollListening env.exitedBy with
        | (.ready, _) => (.ok port, ev3)
        | (.died, _) => (.error (diedMsg env.pid env.logContent), ev3)
        | (.timeout, _) => (.error (timeoutMsg port env.logContent), ev3)

/-- The joined command-line remainder (everything after the PID field) that
`parseLine` scans for parameters. -/
def restOf (line : List Char) : List Char :=
  match goFields line with
  | _ :: f1 :: fs => joinSpace (f1 :: fs)
  | _ => []

/-- Modelled from the spec: the log file name the specification claims
(`forward-port-<port>_<timestamp>.log`), stated for comparison against the
name the code actually builds (`logFileName`). -/
def claimedLogFileName (port : Nat) (timestamp : List Char) : List Char :=
  strL "forward-port-" ++ natToDec port ++ '_' :: timestamp ++ strL ".log"

/-- Group lookup on the association-list model of the Go `byTarget` map
(total, with `[]` for an absent key). -/
def lookupGroup (m : List (List Char × List Forward)) (h : List Char) : List Forward :=
  (((m.find? (fun e => e.1 == h)).map (fun e => e.2)).getD [])

/-- The keys of the association-list model of `byTarget`. -/
def keysOf (m : List (List Char × List Forward)) : List (List Char) :=
  m.map (fun e => e.1)

/-- Three scanned forwards all targeting the same host, local ports
100, 101, 102 in scan order (the concrete instance named by the claim on
`PruneDuplicates`). -/
def demo3 : List Forward :=
  [⟨1, 100, strL "a.example.com", 443⟩,
   ⟨2, 101, strL "a.example.com", 443⟩,
   ⟨3, 102, strL "a.example.com", 443⟩]

/-! ### Helper lemmas: string constants -/

theorem hostKey_eq : hostKey = ['h', 'o', 's', 't', '='] := rfl

theorem portKey_eq : portKey = ['p', 'o', 'r', 't', 'N', 'u', 'm', 'b', 'e', 'r', '='] := rfl

theorem localKey_eq :
    localKey = ['l', 'o', 'c', 'a', 'l', 'P', 'o', 'r', 't', 'N', 'u', 'm', 'b', 'e', 'r', '='] := rfl

theorem hostKey_len : hostKey.length = 5 := rfl

theorem portKey_len : portKey.length = 11 := rfl

theorem localKey_len : localKey.length = 16 := rfl

theorem strL443_len : (strL "443").length = 3 := rfl

/-! ### Helper lemmas: decimal rendering and parsing -/

theorem digitChar_isDigit {d : Nat} (hd : d < 10) : (digitChar d).isDigit = true := by
  interval_cases d <;> decide

theorem digitChar_not_delim {d : Nat} (hd : d < 10) : isDelim (digitChar d) = false := by
  interval_cases d <;> decide

theorem digitChar_toNat {d : Nat} (hd : d < 10) : (digitChar d).toNat - 48 = d := by
  interval_cases d <;> decide

theorem digitChar_ne_plus {d : Nat} (hd : d < 10) : digitChar d ≠ '+' := by
  interval_cases d <;> decide

theorem digitChar_ne_minus {d : Nat} (hd : d < 10) : digitChar d ≠ '-' := by
  interval_cases d <;> decide

theorem toDecAux_eq (n : Nat) : ∀ fuel acc, 0 < n → n ≤ fuel →
    toDecAux fuel n acc = ((Nat.digits 10 n).reverse.map digitChar) ++ acc := by
  induction n using Nat.strong_induction_on with
  | _ n ih =>
    intro fuel acc hn hfuel
    match fuel with
    | 0 => omega
    | f + 1 =>
      by_cases h10 : n < 10
      · have hdig : Nat.digits 10 n = [n % 10] := by
          rw [Nat.digits_def' (by norm_num) hn]
          have : n / 10 = 0 := Nat.div_eq_of_lt h10
          rw [this]
          simp
        simp [toDecAux, h10, hdig]
      · have hn10 : 0 < n / 10 := Nat.div_pos (by omega) (by norm_num)
        have hlt : n / 10 < n := Nat.div_lt_self hn (by norm_num)
        have hrec := ih (n / 10) hlt f (digitChar (n % 10) :: acc) hn10 (by omega)
        have hdig : Nat.digits 10 n = n % 10 :: Nat.digits 10 (n / 10) :=
          Nat.digits_def' (by norm_num) hn
        simp only [toDecAux, h10, if_false]
        rw [hrec, hdig]
        simp

theorem natToDec_eq {n : Nat} (hn : 0 < n) :
    natToDec n = (Nat.digits 10 n).reverse.map digitChar := by
  have := toDecAux_eq n (n + 1) [] hn (by omega)
  simpa [natToDec] using this

theorem natToDec_zero : natToDec 0 = ['0'] := rfl

theorem mem_natToDec {c : Char} {n : Nat} (hc : c ∈ natToDec n) :
    ∃ d, d < 10 ∧ c = digitChar d := by
  rcases Nat.eq_zero_or_pos n with h0 | hp
  · subst h0
    simp only [natToDec_zero, List.mem_singleton] at hc
    exact ⟨0, by omega, hc⟩
  · rw [natToDec_eq hp] at hc
    rcases List.mem_map.mp hc with ⟨d, hd, hcd⟩
    refine ⟨d, ?_, hcd.symm⟩
    exact Nat.digits_lt_base (by norm_num) (List.mem_reverse.mp hd)

theorem natToDec_ne_nil (n : Nat) : natToDec n ≠ [] := by
  rcases Nat.eq_zero_or_pos n with h0 | hp
  · subst h0; simp [natToDec_zero]
  · rw [natToDec_eq hp]
    have : n ≠ 0 := by omega
    simp [Nat.digits_ne_nil_iff_ne_zero, this]

theorem natToDec_no_delim {c : Char} {n : Nat} (hc : c ∈ natToDec n) : isDelim c = false := by
  rcases mem_natToDec hc with ⟨d, hd, rfl⟩
  exact digitChar_not_delim hd

theorem natToDec_all_digit (n : Nat) : (natToDec n).all (fun c => c.isDigit) = true := by
  rw [List.all_eq_true]
  intro c hc
  rcases mem_natToDec hc with ⟨d, hd, rfl⟩
  exact digitChar_isDigit hd

theorem foldl_mul_add_reverse (l : List Nat) (a : Nat) :
    l.reverse.foldl (fun x d => x * 10 + d) a = a * 10 ^ l.length + Nat.ofDigits 10 l := by
  induction l generalizing a with
  | nil => simp [Nat.ofDigits]
  | cons d t ih =>
    rw [List.reverse_cons, List.foldl_append]
    simp only [List.foldl_cons, List.foldl_nil, ih, Nat.ofDigits_cons, List.length_cons]
    ring

theorem parseDigitsNat_natToDec (n : Nat) : parseDigitsNat (natToDec n) = some n := by
  rcases Nat.eq_zero_or_pos n with h0 | hp
  · subst h0; decide
  · have hne : (natToDec n).isEmpty = false := by
      rw [List.isEmpty_eq_false_iff_exists_mem]
      rcases List.exists_mem_of_ne_nil _ (natToDec_ne_nil n) with ⟨c, hc⟩
      exact ⟨c, hc⟩
    rw [parseDigitsNat, hne, natToDec_all_digit]
    simp only [if_false, if_true, Bool.false_eq_true]
    congr 1
    rw [natToDec_eq hp, List.foldl_map]
    have hstep : ∀ (a : Nat), ∀ d ∈ (Nat.digits 10 n).reverse,
        a * 10 + ((digitChar d).toNat - 48) = a * 10 + d := by
      intro a d hd
      rw [digitChar_toNat (Nat.digits_lt_base (by norm_num) (List.mem_reverse.mp hd))]
    rw [List.foldl_ext _ _ 0 hstep, foldl_mul_add_reverse]
    simp [Nat.ofDigits_digits]

theorem goAtoi_natToDec (n : Nat) : goAtoi (natToDec n) = some (n : Int) := by
  rcases hsh : natToDec n with _ | ⟨c, t⟩
  · exact absurd hsh (natToDec_ne_nil n)
  · have hc : c ∈ natToDec n := by rw [hsh]; exact List.mem_cons_self c t
    rcases mem_natToDec hc with ⟨d, hd, rfl⟩
    rw [goAtoi, if_neg (digitChar_ne_plus hd), if_neg (digitChar_ne_minus hd),
      ← hsh, parseDigitsNat_natToDec]
    rfl

/-! ### Helper lemmas: substring search -/

theorem goIndexAux_of_isPre {key s : List Char} (h : key <+: s) : goIndexAux key s = some 0 := by
  have hb : key.isPrefixOf s = true := List.isPrefixOf_iff_prefix.mpr h
  cases s with
  | nil => simp [goIndexAux, hb]
  | cons c t => simp [goIndexAux, hb]

theorem goIndex_append {key a b : List Char}
    (h : ∀ i, i < a.length → ¬ key <+: (a ++ (key ++ b)).drop i) :
    goIndex (a ++ (key ++ b)) key = some a.length := by
  induction a with
  | nil =>
    simpa [goIndex] using goIndexAux_of_isPre (List.prefix_append key b)
  | cons c a' ih =>
    have h0 : ¬ key <+: (c :: (a' ++ (key ++ b))) := by
      have := h 0 (by simp)
      simpa using this
    have hb : key.isPrefixOf (c :: (a' ++ (key ++ b))) = false := by
      rcases hcase : key.isPrefixOf (c :: (a' ++ (key ++ b))) with _ | _
      · rfl
      · exact absurd (List.isPrefixOf_iff_prefix.mp hcase) h0
    have hrest : goIndex (a' ++ (key ++ b)) key = some a'.length := by
      apply ih
      intro i hi
      have := h (i + 1) (by simp; omega)
      simpa [List.drop_succ_cons] using this
    simp only [goIndex, List.cons_append, goIndexAux, hb, Bool.false_eq_true, if_false,
      List.append_eq]
    rw [show goIndexAux key (a' ++ (key ++ b)) = some a'.length from hrest]
    simp

theorem not_prefix_drop_span {key pre b : List Char} (hc : ',' ∉ key) {i : Nat}
    (hi : i ≤ pre.length) (hsp : pre.length < i + key.length) :
    ¬ key <+: (pre ++ ',' :: b).drop i := by
  intro hp
  have hdrop : (pre ++ ',' :: b).drop i = pre.drop i ++ ',' :: b := by
    rw [List.drop_append_eq_append_drop]
    have : i - pre.length = 0 := by omega
    rw [this, List.drop_zero]
  rw [hdrop] at hp
  have hm : pre.length - i < key.length := by omega
  have hmlen : pre.length - i < (pre.drop i ++ ',' :: b).length := by
    simp only [List.length_append, List.length_drop, List.length_cons]
    omega
  have hdroplen : (pre.drop i).length = pre.length - i := by
    simp [List.length_drop]
  have hval : (pre.drop i ++ ',' :: b)[pre.length - i] = ',' := by
    rw [List.getElem_append_right (by omega)]
    simp [hdroplen]
  have hkey : key[pre.length - i] = ',' := by
    rw [List.IsPrefix.getElem hp hm] at *
    exact hval
  exact hc (hkey ▸ List.getElem_mem hm)

theorem prefix_append_of_length_le {key x y : List Char}
    (hp : key <+: x ++ y) (hl : key.length ≤ x.length) : key <+: x := by
  rw [List.prefix_iff_eq_take] at hp ⊢
  rw [List.take_append_eq_append_take] at hp
  have h0 : key.length - x.length = 0 := by omega
  rw [h0] at hp
  simpa using hp

theorem infix_of_prefix_drop {key s : List Char} {i : Nat} (hp : key <+: s.drop i) :
    key <:+: s := by
  rcases hp with ⟨t, ht⟩
  exact ⟨s.take i, t, by rw [List.append_assoc, ht, List.take_append_drop]⟩

theorem not_prefix_of_head_ne {key : List Char} {c k : Char} {t : List Char}
    (hk : key.head? = some k) (hne : k ≠ c) : ¬ key <+: (c :: t) := by
  intro hp
  rcases hp with ⟨u, hu⟩
  cases key with
  | nil => simp at hk
  | cons k' ks =>
    have hk' : k' = k := by simpa using hk
    have hc : k' = c := by
      simp only [List.cons_append] at hu
      exact (List.cons.injEq _ _ _ _ ▸ hu).1
    exact hne (hk' ▸ hc ▸ rfl)

/-! ### Helper lemmas: takeWhile -/

theorem takeWhile_append_all {p : Char → Bool} {xs l : List Char}
    (h : ∀ c ∈ xs, p c = true) : (xs ++ l).takeWhile p = xs ++ l.takeWhile p := by
  induction xs with
  | nil => simp
  | cons c t ih =>
    have hc : p c = true := h c (List.mem_cons_self c t)
    simp only [List.cons_append, List.takeWhile_cons, hc, if_true]
    rw [ih (fun d hd => h d (List.mem_cons_of_mem c hd))]

theorem takeWhile_all {p : Char → Bool} {l : List Char}
    (h : ∀ c ∈ l, p c = true) : l.takeWhile p = l :=
  List.takeWhile_eq_self_iff.mpr h

theorem takeWhile_comma (X : List Char) :
    (',' :: X).takeWhile (fun c => !isDelim c) = [] := by
  rw [List.takeWhile_cons, if_neg (by decide)]

theorem takeWhile_443 (X : List Char) :
    ('4' :: '4' :: '3' :: ',' :: X).takeWhile (fun c => !isDelim c) = ['4', '4', '3'] := by
  rw [List.takeWhile_cons, if_pos (by decide), List.takeWhile_cons, if_pos (by decide),
    List.takeWhile_cons, if_pos (by decide), List.takeWhile_cons, if_neg (by decide)]

/-! ### Helper lemmas: parameter extraction on the launcher's string -/

theorem mkParams_shape1 (h : List Char) (p : Nat) :
    mkParams h p
      = (hostKey ++ h ++ [',']) ++ (portKey ++ (strL "443," ++ (localKey ++ natToDec p))) := by
  simp [mkParams, List.append_assoc]

theorem mkParams_shape2 (h : List Char) (p : Nat) :
    mkParams h p
      = (hostKey ++ h) ++ ',' :: (portKey ++ (strL "443," ++ (localKey ++ natToDec p))) := by
  simp [mkParams, List.append_assoc]

theorem mkParams_shape3 (h : List Char) (p : Nat) :
    mkParams h p
      = (hostKey ++ h ++ [','] ++ portKey ++ strL "443" ++ [',']) ++ (localKey ++ natToDec p) := by
  have h443 : strL "443," = strL "443" ++ [','] := rfl
  simp [mkParams, h443, List.append_assoc]

theorem extract_host (h : List Char) (p : Nat) (hnc : ',' ∉ h) (hns : ' ' ∉ h) :
    extractParam (mkParams h p) hostKey = h := by
  have hpre : hostKey <+: mkParams h p := by
    rw [mkParams]
    exact List.prefix_append _ _
  have hidx : goIndex (mkParams h p) hostKey = some 0 := goIndexAux_of_isPre hpre
  simp only [extractParam, hidx]
  have hdrop : (mkParams h p).drop (0 + hostKey.length)
      = h ++ ',' :: (portKey ++ (strL "443," ++ (localKey ++ natToDec p))) := by
    rw [Nat.zero_add, mkParams]
    have hdl := List.drop_left hostKey
        (h ++ ',' :: (portKey ++ (strL "443," ++ (localKey ++ natToDec p))))
    rw [← List.append_assoc] at hdl
    simpa [List.append_assoc] using hdl
  rw [hdrop, takeWhile_append_all, takeWhile_comma, List.append_nil]
  intro c hc
  have h1 : c ≠ ',' := fun e => hnc (e ▸ hc)
  have h2 : c ≠ ' ' := fun e => hns (e ▸ hc)
  simp [isDelim, h1, h2]

theorem no_early_portKey (h : List Char) (p : Nat) (hp1 : ¬ portKey <:+: h) :
    ∀ i, i < (hostKey ++ h ++ [',']).length →
      ¬ portKey <+: (((hostKey ++ h ++ [','])
          ++ (portKey ++ (strL "443," ++ (localKey ++ natToDec p)))).drop i) := by
  intro i hi hp
  have hi6 : i < h.length + 6 := by
    simp only [List.length_append, hostKey_len, List.length_cons, List.length_nil] at hi
    omega
  have hsh : (hostKey ++ h ++ [',']) ++ (portKey ++ (strL "443," ++ (localKey ++ natToDec p)))
      = (hostKey ++ h) ++ ',' :: (portKey ++ (strL "443," ++ (localKey ++ natToDec p))) := by
    simp [List.append_assoc]
  rw [hsh] at hp
  by_cases hc1 : i + 11 ≤ 5 + h.length
  · have hile : i ≤ (hostKey ++ h).length := by
      simp only [List.length_append, hostKey_len]; omega
    have hz : i - (hostKey ++ h).length = 0 := by omega
    rw [List.drop_append_eq_append_drop, hz, List.drop_zero] at hp
    have hp3 : portKey <+: (hostKey ++ h).drop i := by
      refine prefix_append_of_length_le hp ?_
      simp only [portKey_len, List.length_drop, List.length_append, hostKey_len]
      omega
    by_cases hc2 : i ≤ 4
    · have hz2 : i - hostKey.length = 0 := by rw [hostKey_len]; omega
      rw [List.drop_append_eq_append_drop, hz2, List.drop_zero] at hp3
      interval_cases i <;>
        · simp only [hostKey_eq, List.drop, List.cons_append, List.nil_append] at hp3
          exact not_prefix_of_head_ne (by decide : portKey.head? = some 'p') (by decide) hp3
    · have h5 : hostKey.length ≤ i := by rw [hostKey_len]; omega
      rw [List.drop_append_eq_append_drop, List.drop_eq_nil_of_le h5, List.nil_append] at hp3
      exact hp1 (infix_of_prefix_drop hp3)
  · refine not_prefix_drop_span (by decide) ?_ ?_ hp
    · simp only [List.length_append, hostKey_len]; omega
    · simp only [List.length_append, hostKey_len, portKey_len]; omega

theorem extract_port (h : List Char) (p : Nat) (hp1 : ¬ portKey <:+: h) :
    extractParam (mkParams h p) portKey = strL "443" := by
  have hlenA : (hostKey ++ h ++ [',']).length = h.length + 6 := by
    simp only [List.length_append, hostKey_len, List.length_cons, List.length_nil]
    omega
  have hidx : goIndex (mkParams h p) portKey = some (h.length + 6) := by
    rw [mkParams_shape1, goIndex_append (no_early_portKey h p hp1), hlenA]
  simp only [extractParam, hidx, portKey_len]
  have hdrop : (mkParams h p).drop (h.length + 6 + 11)
      = strL "443," ++ (localKey ++ natToDec p) := by
    rw [mkParams_shape1, ← List.append_assoc]
    have hlen2 : ((hostKey ++ h ++ [',']) ++ portKey).length = h.length + 6 + 11 := by
      rw [List.length_append, hlenA, portKey_len]
    rw [← hlen2]
    exact List.drop_left _ _
  rw [hdrop]
  exact takeWhile_443 _

theorem no_early_localKey (h : List Char) (p : Nat) (hp2 : ¬ localKey <:+: h) :
    ∀ i, i < (hostKey ++ h ++ [','] ++ portKey ++ strL "443" ++ [',']).length →
      ¬ localKey <+: (((hostKey ++ h ++ [','] ++ portKey ++ strL "443" ++ [','])
          ++ (localKey ++ natToDec p)).drop i) := by
  intro i hi hp
  have hi21 : i < h.length + 21 := by
    simp only [List.length_append, hostKey_len, portKey_len, strL443_len,
      List.length_cons, List.length_nil] at hi
    omega
  have hsh : (hostKey ++ h ++ [','] ++ portKey ++ strL "443" ++ [','])
        ++ (localKey ++ natToDec p)
      = (hostKey ++ h)
        ++ ',' :: (portKey ++ (strL "443," ++ (localKey ++ natToDec p))) := by
    have h443 : strL "443," = strL "443" ++ [','] := rfl
    simp [h443, List.append_assoc]
  by_cases hc1 : i + 16 ≤ 5 + h.length
  · rw [hsh] at hp
    have hile : i ≤ (hostKey ++ h).length := by
      simp only [List.length_append, hostKey_len]; omega
    have hz : i - (hostKey ++ h).length = 0 := by omega
    rw [List.drop_append_eq_append_drop, hz, List.drop_zero] at hp
    have hp3 : localKey <+: (hostKey ++ h).drop i := by
      refine prefix_append_of_length_le hp ?_
      simp only [localKey_len, List.length_drop, List.length_append, hostKey_len]
      omega
    by_cases hc2 : i ≤ 4
    · have hz2 : i - hostKey.length = 0 := by rw [hostKey_len]; omega
      rw [List.drop_append_eq_append_drop, hz2, List.drop_zero] at hp3
      interval_cases i <;>
        · simp only [hostKey_eq, List.drop, List.cons_append, List.nil_append] at hp3
          exact not_prefix_of_head_ne (by decide : localKey.head? = some 'l') (by decide) hp3
    · have h5 : hostKey.length ≤ i := by rw [hostKey_len]; omega
      rw [List.drop_append_eq_append_drop, List.drop_eq_nil_of_le h5, List.nil_append] at hp3
      exact hp2 (infix_of_prefix_drop hp3)
  · by_cases hc3 : i ≤ 5 + h.length
    · rw [hsh] at hp
      refine not_prefix_drop_span (by decide) ?_ ?_ hp
      · simp only [List.length_append, hostKey_len]; omega
      · simp only [List.length_append, hostKey_len, localKey_len]; omega
    · have hsh2 : (hostKey ++ h ++ [','] ++ portKey ++ strL "443" ++ [','])
            ++ (localKey ++ natToDec p)
          = (hostKey ++ h ++ [','] ++ portKey ++ strL "443")
            ++ ',' :: (localKey ++ natToDec p) := by
        simp [List.append_assoc]
      rw [hsh2] at hp
      refine not_prefix_drop_span (by decide) ?_ ?_ hp
      · simp only [List.length_append, hostKey_len, portKey_len, strL443_len,
          List.length_cons, List.length_nil]
        omega
      · simp only [List.length_append, hostKey_len, portKey_len, localKey_len, strL443_len,
          List.length_cons, List.length_nil]
        omega

theorem extract_local (h : List Char) (p : Nat) (hp2 : ¬ localKey <:+: h) :
    extractParam (mkParams h p) localKey = natToDec p := by
  have hlenA : (hostKey ++ h ++ [','] ++ portKey ++ strL "443" ++ [',']).length
      = h.length + 21 := by
    simp only [List.length_append, hostKey_len, portKey_len, List.length_cons,
      List.length_nil, strL443_len]
    omega
  have hidx : goIndex (mkParams h p) localKey = some (h.length + 21) := by
    rw [mkParams_shape3, goIndex_append (no_early_localKey h p hp2), hlenA]
  simp only [extractParam, hidx, localKey_len]
  have hdrop : (mkParams h p).drop (h.length + 21 + 16) = natToDec p := by
    rw [mkParams_shape3, ← List.append_assoc]
    have hlen2 : ((hostKey ++ h ++ [','] ++ portKey ++ strL "443" ++ [',']) ++ localKey).length
        = h.length + 21 + 16 := by
      rw [List.length_append, hlenA, localKey_len]
    rw [← hlen2]
    exact List.drop_left _ _
  rw [hdrop]
  refine takeWhile_all ?_
  intro c hc
  have := natToDec_no_delim hc
  simp [this]

/-! ### Helper lemmas: port allocation -/

theorem findAux_some_spec (R L : Nat → Bool) :
    ∀ fuel start p, findAvailablePortAux R L start fuel = some p →
      start ≤ p ∧ p < start + fuel ∧ R p = false ∧ L p = false ∧
      ∀ q, start ≤ q → q < p → (R q = true ∨ L q = true) := by
  intro fuel
  induction fuel with
  | zero => intro start p hp; simp [findAvailablePortAux] at hp
  | succ f ih =>
    intro start p hp
    rcases hR : R start with _ | _
    · rcases hL : L start with _ | _
      · have hsome : some start = some p := by
          simpa [findAvailablePortAux, hR, hL] using hp
        have hps : p = start := (Option.some.injEq _ _ ▸ hsome).symm
        subst hps
        exact ⟨le_refl _, by omega, hR, hL, fun q hq hq' => by omega⟩
      · have hrec : findAvailablePortAux R L (start + 1) f = some p := by
          simpa [findAvailablePortAux, hR, hL] using hp
        rcases ih (start + 1) p hrec with ⟨h1, h2, h3, h4, h5⟩
        refine ⟨by omega, by omega, h3, h4, ?_⟩
        intro q hq hq'
        rcases Nat.eq_or_lt_of_le hq with rfl | hlt
        · exact Or.inr hL
        · exact h5 q (by omega) hq'
    · have hrec : findAvailablePortAux R L (start + 1) f = some p := by
        simpa [findAvailablePortAux, hR] using hp
      rcases ih (start + 1) p hrec with ⟨h1, h2, h3, h4, h5⟩
      refine ⟨by omega, by omega, h3, h4, ?_⟩
      intro q hq hq'
      rcases Nat.eq_or_lt_of_le hq with rfl | hlt
      · exact Or.inl hR
      · exact h5 q (by omega) hq'

theorem findAux_none_iff (R L : Nat → Bool) :
    ∀ fuel start, findAvailablePortAux R L start fuel = none ↔
      ∀ q, start ≤ q → q < start + fuel → (R q = true ∨ L q = true) := by
  intro fuel
  induction fuel with
  | zero =>
    intro start
    simp only [findAvailablePortAux]
    constructor
    · intro _ q hq hq'; omega
    · intro _; trivial
  | succ f ih =>
    intro start
    rcases hR : R start with _ | _
    · rcases hL : L start with _ | _
      · simp only [findAvailablePortAux, hR, hL]
        constructor
        · intro h; simp at h
        · intro h
          rcases h start (le_refl _) (by omega) with h' | h'
          · rw [hR] at h'; exact absurd h' (by simp)
          · rw [hL] at h'; exact absurd h' (by simp)
      · simp only [findAvailablePortAux, hR, hL, Bool.not_true, Bool.false_eq_true, if_false,
          if_true]
        rw [ih (start + 1)]
        constructor
        · intro h q hq hq'
          rcases Nat.eq_or_lt_of_le hq with rfl | hlt
          · exact Or.inr hL
          · exact h q (by omega) (by omega)
        · intro h q hq hq'
          exact h q (by omega) (by omega)
    · simp only [findAvailablePortAux, hR, if_true]
      rw [ih (start + 1)]
      constructor
      · intro h q hq hq'
        rcases Nat.eq_or_lt_of_le hq with rfl | hlt
        · exact Or.inl hR
        · exact h q (by omega) (by omega)
      · intro h q hq hq'
        exact h q (by omega) (by omega)

/-! ### Helper lemmas: the readiness poll -/

theorem poll_died_spec (listening exitedBy : Nat → Bool) :
    ∀ fuel attempt k, attempt ≤ k → k < attempt + fuel →
      exitedBy k = true → (∀ i, attempt ≤ i → i ≤ k → listening i = false) →
      (pollAuxSteps listening exitedBy attempt fuel).1 = .died ∧
      (pollAuxSteps listening exitedBy attempt fuel).2 ≤ k + 1 - attempt := by
  intro fuel
  induction fuel with
  | zero => intro attempt k h1 h2; omega
  | succ f ih =>
    intro attempt k h1 h2 hex hlisten
    have hl : listening attempt = false := hlisten attempt (le_refl _) h1
    rcases hx : exitedBy attempt with _ | _
    · have hne : attempt ≠ k := fun e => by rw [e, hex] at hx; exact absurd hx (by simp)
      have hrec := ih (attempt + 1) k (by omega) (by omega) hex
        (fun i hi hi' => hlisten i (by omega) hi')
      simp only [pollAuxSteps, hl, hx, Bool.false_eq_true, if_false]
      exact ⟨hrec.1, by have := hrec.2; omega⟩
    · simp only [pollAuxSteps, hl, hx, Bool.false_eq_true, if_false, if_true]
      exact ⟨by trivial, by omega⟩

/-! ### Helper lemmas: grouping by target host -/

theorem lookupGroup_nil (h : List Char) : lookupGroup [] h = [] := rfl

theorem lookup_cons_pos {k : List Char} {items : List Forward}
    {rest : List (List Char × List Forward)} {h : List Char} (hk : (k == h) = true) :
    lookupGroup ((k, items) :: rest) h = items := by
  rw [lookupGroup, List.find?_cons_of_pos _ (by simpa using hk)]
  rfl

theorem lookup_cons_neg {k : List Char} {items : List Forward}
    {rest : List (List Char × List Forward)} {h : List Char} (hk : (k == h) = false) :
    lookupGroup ((k, items) :: rest) h = lookupGroup rest h := by
  rw [lookupGroup, List.find?_cons_of_neg _ (by simp [hk]), lookupGroup]

theorem lookup_addToGroup (m : List (List Char × List Forward)) (f : Forward)
    (h : List Char) :
    lookupGroup (addToGroup m f) h
      = lookupGroup m h ++ (if f.targetHost = h then [f] else []) := by
  induction m with
  | nil =>
    by_cases hfh : f.targetHost = h
    · rw [show addToGroup [] f = [(f.targetHost, [f])] from rfl,
        lookup_cons_pos (by simpa using hfh), lookupGroup_nil]
      simp [hfh]
    · rw [show addToGroup [] f = [(f.targetHost, [f])] from rfl,
        lookup_cons_neg (by simpa using hfh)]
      simp [hfh]
  | cons e rest ih =>
    rcases e with ⟨k, items⟩
    by_cases hk : k = f.targetHost
    · rw [show addToGroup ((k, items) :: rest) f = (k, items ++ [f]) :: rest from by
        simp [addToGroup, hk]]
      by_cases hh : k = h
      · rw [lookup_cons_pos (by simpa using hh), lookup_cons_pos (by simpa using hh)]
        have hfh : f.targetHost = h := by rw [← hk]; exact hh
        simp [hfh]
      · rw [lookup_cons_neg (by simpa using hh), lookup_cons_neg (by simpa using hh)]
        have hfh : f.targetHost ≠ h := by rw [← hk]; exact hh
        simp [hfh]
    · rw [show addToGroup ((k, items) :: rest) f = (k, items) :: addToGroup rest f from by
        simp [addToGroup, hk]]
      by_cases hh : k = h
      · rw [lookup_cons_pos (by simpa using hh), lookup_cons_pos (by simpa using hh)]
        have hfh : f.targetHost ≠ h := fun e => hk (by rw [hh, e])
        simp [hfh]
      · rw [lookup_cons_neg (by simpa using hh), lookup_cons_neg (by simpa using hh)]
        exact ih

theorem lookup_foldl_addToGroup (fs : List Forward) :
    ∀ m h, lookupGroup (fs.foldl addToGroup m) h
      = lookupGroup m h ++ fs.filter (fun f => f.targetHost == h) := by
  induction fs with
  | nil => intro m h; simp
  | cons f fs ih =>
    intro m h
    rw [List.foldl_cons, ih, lookup_addToGroup, List.filter_cons, List.append_assoc]
    by_cases hfh : f.targetHost = h
    · simp [hfh]
    · have : (f.targetHost == h) = false := by simpa using hfh
      simp [hfh, this]

theorem lookup_byTarget (fs : List Forward) (h : List Char) :
    lookupGroup (byTarget fs) h = fs.filter (fun f => f.targetHost == h) := by
  have := lookup_foldl_addToGroup fs [] h
  simpa [byTarget, lookupGroup_nil] using this

theorem keys_addToGroup (m : List (List Char × List Forward)) (f : Forward) :
    keysOf (addToGroup m f)
      = if f.targetHost ∈ keysOf m then keysOf m else keysOf m ++ [f.targetHost] := by
  induction m with
  | nil => simp [addToGroup, keysOf]
  | cons e rest ih =>
    rcases e with ⟨k, items⟩
    by_cases hk : k = f.targetHost
    · have hmem : f.targetHost ∈ keysOf ((k, items) :: rest) := by
        simp [keysOf, hk.symm]
      rw [show addToGroup ((k, items) :: rest) f = (k, items ++ [f]) :: rest from by
        simp [addToGroup, hk], if_pos hmem]
      simp [keysOf]
    · have hne : f.targetHost ≠ k := fun e => hk e.symm
      rw [show addToGroup ((k, items) :: rest) f = (k, items) :: addToGroup rest f from by
        simp [addToGroup, hk]]
      by_cases hmem : f.targetHost ∈ keysOf rest
      · have hmem2 : f.targetHost ∈ keysOf ((k, items) :: rest) := by
          simp [keysOf] at hmem ⊢
          exact Or.inr hmem
        rw [if_pos hmem2]
        simp only [keysOf, List.map_cons] at *
        rw [ih, if_pos hmem]
      · have hmem2 : f.targetHost ∉ keysOf ((k, items) :: rest) := by
          simp [keysOf] at hmem ⊢
          exact ⟨hne, hmem⟩
        rw [if_neg hmem2]
        simp only [keysOf, List.map_cons] at *
        rw [ih, if_neg hmem]
        simp

theorem nodup_keys_foldl (fs : List Forward) :
    ∀ m, (keysOf m).Nodup → (keysOf (fs.foldl addToGroup m)).Nodup := by
  induction fs with
  | nil => intro m hm; simpa using hm
  | cons f fs ih =>
    intro m hm
    rw [List.foldl_cons]
    apply ih
    rw [keys_addToGroup]
    by_cases hmem : f.targetHost ∈ keysOf m
    · simpa [hmem] using hm
    · simp only [hmem, if_false]
      rw [List.nodup_append]
      refine ⟨hm, List.nodup_singleton _, ?_⟩
      intro a ha hb
      simp only [List.mem_singleton] at hb
      exact hmem (hb ▸ ha)

theorem nodup_keys_byTarget (fs : List Forward) : (keysOf (byTarget fs)).Nodup :=
  nodup_keys_foldl fs [] (by simp [keysOf])

theorem lookup_of_mem_of_nodup (m : List (List Char × List Forward)) :
    (keysOf m).Nodup → ∀ h items, (h, items) ∈ m → lookupGroup m h = items := by
  induction m with
  | nil => intro _ h items hmem; simp at hmem
  | cons e rest ih =>
    rcases e with ⟨k, its⟩
    intro hm h items hmem
    have hknodup : k ∉ keysOf rest := by
      simp only [keysOf, List.map_cons, List.nodup_cons] at hm
      exact hm.1
    have hrest : (keysOf rest).Nodup := by
      simp only [keysOf, List.map_cons, List.nodup_cons] at hm
      exact hm.2
    rcases List.mem_cons.mp hmem with heq | htail
    · rcases Prod.ext_iff.mp heq with ⟨hk, hits⟩
      simp only at hk hits
      rw [lookup_cons_pos (by simp [hk.symm])]
      exact hits.symm
    · have hne : k ≠ h := by
        intro e
        subst e
        exact hknodup (by
          simp only [keysOf, List.mem_map]
          exact ⟨(k, items), htail, rfl⟩)
      rw [lookup_cons_neg (by simpa using hne)]
      exact ih hrest h items htail

theorem keys_sub_hosts (fs : List Forward) :
    ∀ m, keysOf (fs.foldl addToGroup m) ⊆ keysOf m ++ fs.map (fun f => f.targetHost) := by
  induction fs with
  | nil => intro m; simp
  | cons f fs ih =>
    intro m
    rw [List.foldl_cons]
    intro k hk
    rcases List.mem_append.mp (ih (addToGroup m f) hk) with hk1 | hk2
    · rw [keys_addToGroup] at hk1
      by_cases hmem : f.targetHost ∈ keysOf m
      · rw [if_pos hmem] at hk1
        exact List.mem_append.mpr (Or.inl hk1)
      · rw [if_neg hmem] at hk1
        rcases List.mem_append.mp hk1 with hk3 | hk3
        · exact List.mem_append.mpr (Or.inl hk3)
        · simp only [List.mem_singleton] at hk3
          subst hk3
          simp
    · simp only [List.map_cons, List.mem_append, List.mem_cons]
      right
      right
      exact hk2

theorem mem_byTarget_iff (fs : List Forward) (h : List Char) (items : List Forward) :
    (h, items) ∈ byTarget fs ↔
      (items = fs.filter (fun f => f.targetHost == h) ∧ items ≠ []) := by
  constructor
  · intro hmem
    have hlk := lookup_of_mem_of_nodup (byTarget fs) (nodup_keys_byTarget fs) h items hmem
    rw [lookup_byTarget] at hlk
    refine ⟨hlk.symm, ?_⟩
    have hk : h ∈ keysOf (byTarget fs) := by
      simp only [keysOf, List.mem_map]
      exact ⟨(h, items), hmem, rfl⟩
    have hsub := keys_sub_hosts fs [] hk
    simp only [keysOf, List.map_nil, List.nil_append, List.mem_map] at hsub
    rcases hsub with ⟨f, hf, hfh⟩
    have hfmem : f ∈ fs.filter (fun f => f.targetHost == h) :=
      List.mem_filter.mpr ⟨hf, by simp [hfh]⟩
    rw [hlk] at hfmem
    exact List.ne_nil_of_mem hfmem
  · rintro ⟨hitems, hne⟩
    have hlk := lookup_byTarget fs h
    rw [← hitems] at hlk
    rcases hfind : (byTarget fs).find? (fun e => e.1 == h) with _ | e
    · rw [lookupGroup, hfind] at hlk
      simp at hlk
      exact absurd hlk hne
    · rcases e with ⟨k, its⟩
      have hkh : k = h := by
        have := List.find?_some hfind
        simpa using this
      have hits : its = items := by
        rw [lookupGroup, hfind] at hlk
        simpa using hlk
      subst hkh
      subst hits
      exact List.mem_of_find?_eq_some hfind

theorem foldl_prune_total (kill : Int → Bool) (l : List (List Char × List Forward)) :
    ∀ a, l.foldl
        (fun total e =>
          if e.2.length ≤ 1 then total
          else total + (e.2.drop 1).countP (fun f => kill f.pid)) a
      = a + (l.map (fun e =>
          if e.2.length ≤ 1 then 0
          else (e.2.drop 1).countP (fun f => kill f.pid))).sum := by
  induction l with
  | nil => intro a; simp
  | cons e rest ih =>
    intro a
    rw [List.foldl_cons, ih, List.map_cons, List.sum_cons]
    by_cases he : e.2.length ≤ 1
    · rw [if_pos he, if_pos he]
      omega
    · rw [if_neg he, if_neg he]
      omega

/-! ### Helper lemmas: the shape of a StartForward event trace -/

theorem startForward_trace (bastionID targetHost profile region : List Char)
    (reserved : Nat → Bool) (env : SFEnv) :
    (startForward bastionID targetHost profile region reserved env).2 = [] ∨
    ∃ port, FindAvailablePort reserved env.listening = some port ∧
      ((startForward bastionID targetHost profile region reserved env).2
          = (if env.hasMarkCb then [SFEvent.markInactive port] else [])
            ++ [SFEvent.mkdirAll (ssmLogDir env.home),
                SFEvent.createLog (logPath env.home port env.timestamp)] ∨
       (startForward bastionID targetHost profile region reserved env).2
          = (if env.hasMarkCb then [SFEvent.markInactive port] else [])
            ++ [SFEvent.mkdirAll (ssmLogDir env.home),
                SFEvent.createLog (logPath env.home port env.timestamp),
                SFEvent.launch (awsArgv bastionID
                  (mkParams (goTrimPrefix targetHost (strL "https://")) port)
                  profile region)]) := by
  rcases hfind : FindAvailablePort reserved env.listening with _ | port
  · left
    simp [startForward, hfind]
  · right
    refine ⟨port, rfl, ?_⟩
    rcases hcr : env.logCreateOk with _ | _
    · left
      simp [startForward, hfind, hcr]
    · right
      rcases hst : env.startOk with _ | _
      · simp [startForward, hfind, hcr, hst]
      · rcases hpr : pollForward env.pollListening env.exitedBy with ⟨r, n⟩
        cases r <;> simp [startForward, hfind, hcr, hst, hpr]

/-! ### Claim theorems -/

/-- Claim C1: for every reserved set `R` and listening set `L`,
`FindAvailablePort` returns the smallest port `p` in [49152, 65535] with
`p ∉ R` and `p ∉ L`, and fails (returns `none`) iff every port in the
range is in `R ∪ L`. -/
theorem claim1_findAvailablePort (R L : Nat → Bool) :
    (∀ p, FindAvailablePort R L = some p →
      49152 ≤ p ∧ p ≤ 65535 ∧ R p = false ∧ L p = false ∧
      ∀ q, 49152 ≤ q → q < p → (R q = true ∨ L q = true)) ∧
    (FindAvailablePort R L = none ↔
      ∀ p, 49152 ≤ p → p ≤ 65535 → (R p = true ∨ L p = true)) := by
  constructor
  · intro p hp
    rcases findAux_some_spec R L 16384 49152 p hp with ⟨h1, h2, h3, h4, h5⟩
    exact ⟨h1, by omega, h3, h4, h5⟩
  · rw [FindAvailablePort, findAux_none_iff]
    constructor
    · intro h p hp1 hp2
      exact h p hp1 (by omega)
    · intro h q hq1 hq2
      exact h q hq1 (by omega)

/-- Witness for C1 at a concrete input: with every port reserved the
allocator fails. -/
theorem claim1_witness :
    FindAvailablePort (fun _ => true) (fun _ => false) = none :=
  (claim1_findAvailablePort (fun _ => true) (fun _ => false)).2.mpr
    (fun _ _ _ => Or.inl rfl)

/-- Counterexample to C2 as stated: the host `"portNumber=0"` contains no
comma and no space, yet the launcher-to-scanner round trip mis-extracts the
target port (the raw substring search finds `portNumber=` inside the host
value first, yielding `"0"` instead of `"443"`). -/
theorem claim2_counterexample :
    (',' ∉ strL "portNumber=0" ∧ ' ' ∉ strL "portNumber=0") ∧
    extractParam (mkParams (strL "portNumber=0") 51000) portKey ≠ strL "443" ∧
    extractParam (mkParams (strL "portNumber=0") 51000) portKey = strL "0" := by
  refine ⟨by decide, by decide, by decide⟩

/-- Claim C2 (amended): the parameter string
`host=<h>,portNumber=443,localPortNumber=<p>` built by `StartForward` is
parsed back by the scanner's `extractParam` to host `h`, target port 443
and local port `p`, provided `h` contains no comma, no space, and neither
`portNumber=` nor `localPortNumber=` as a substring. -/
theorem claim2_roundtrip (h : List Char) (p : Nat)
    (hnc : ',' ∉ h) (hns : ' ' ∉ h)
    (hp1 : ¬ portKey <:+: h) (hp2 : ¬ localKey <:+: h) :
    extractParam (mkParams h p) hostKey = h ∧
    extractParam (mkParams h p) portKey = strL "443" ∧
    extractParam (mkParams h p) localKey = natToDec p ∧
    goAtoi (extractParam (mkParams h p) localKey) = some (p : Int) :=
  ⟨extract_host h p hnc hns, extract_port h p hp1, extract_local h p hp2,
   by rw [extract_local h p hp2]; exact goAtoi_natToDec p⟩

/-- Witness for C2 (amended) at the host `a.example.com` and port 51000. -/
theorem claim2_witness :
    extractParam (mkParams (strL "a.example.com") 51000) hostKey = strL "a.example.com" ∧
    extractParam (mkParams (strL "a.example.com") 51000) portKey = strL "443" ∧
    extractParam (mkParams (strL "a.example.com") 51000) localKey = natToDec 51000 ∧
    goAtoi (extractParam (mkParams (strL "a.example.com") 51000) localKey)
      = some (51000 : Int) :=
  claim2_roundtrip (strL "a.example.com") 51000 (by decide) (by decide) (by decide) (by decide)

/-- Claim C3: `killProcess` returns `false` exactly when the process lookup
or the SIGTERM delivery fails; the outcome of the unconditional SIGKILL is
irrelevant, so on an already-exited pid (failed SIGKILL) it still returns
`true` as long as the SIGTERM was delivered. -/
theorem claim3_killProcess :
    ∀ e : KillEnv,
      (killProcess e = false ↔ (e.findOk = false ∨ e.termOk = false)) ∧
      (killProcess e = true ↔ (e.findOk = true ∧ e.termOk = true)) ∧
      (∀ k', killProcess e = killProcess ⟨e.findOk, e.termOk, k'⟩) := by
  rintro ⟨f, t, k⟩
  refine ⟨?_, ?_, ?_⟩ <;> cases f <;> cases t <;> simp [killProcess]

/-- Claim C4: if the launched child has already exited (the exit observer
posted by attempt `k`, within the 60-attempt budget) before the port ever
became listening, `StartForward` returns the process-died error carrying
the full captured log contents, and the poll loop consumes at most `k`
attempts instead of the full budget. -/
theorem claim4_earlyExit (bastionID targetHost profile region : List Char)
    (reserved : Nat → Bool) (env : SFEnv) (port k : Nat)
    (hfind : FindAvailablePort reserved env.listening = some port)
    (hcreate : env.logCreateOk = true) (hstart : env.startOk = true)
    (hk1 : 1 ≤ k) (hk60 : k ≤ 60)
    (hex : env.exitedBy k = true)
    (hlisten : ∀ i, i ≤ k → env.pollListening i = false) :
    (startForward bastionID targetHost profile region reserved env).1
        = .error (diedMsg env.pid env.logContent) ∧
    env.logContent <:+: diedMsg env.pid env.logContent ∧
    (pollForward env.pollListening env.exitedBy).2 ≤ k := by
  have hpoll := poll_died_spec env.pollListening env.exitedBy 60 1 k hk1 (by omega) hex
    (fun i _ hi2 => hlisten i hi2)
  have hp1 : (pollForward env.pollListening env.exitedBy).1 = .died := by
    rw [pollForward]
    exact hpoll.1
  have hp2 : (pollForward env.pollListening env.exitedBy).2 ≤ k := by
    rw [pollForward]
    have := hpoll.2
    omega
  refine ⟨?_, ⟨strL "SSM process (PID " ++ natToDec env.pid ++ strL ") died. Log:\n", [],
    by simp [diedMsg, List.append_assoc]⟩, hp2⟩
  rcases hpr : pollForward env.pollListening env.exitedBy with ⟨r, n⟩
  rw [hpr] at hp1
  simp only at hp1
  subst hp1
  simp [startForward, hfind, hcreate, hstart, hpr]

/-- Witness for C4: a child that exits at the first attempt while the port
never listens makes `StartForward` fail with the log-carrying error after
one attempt. -/
theorem claim4_witness :
    (startForward (strL "i-b") (strL "https://ep.example.com") (strL "prof") (strL "eu-1")
        (fun _ => false)
        ⟨fun _ => false, true, true, true, fun _ => false, fun i => decide (1 ≤ i),
         strL "LOGTEXT", 7, strL "ts", strL "home"⟩).1
      = .error (diedMsg 7 (strL "LOGTEXT")) ∧
    strL "LOGTEXT" <:+: diedMsg 7 (strL "LOGTEXT") ∧
    (pollForward (fun _ => false) (fun i => decide (1 ≤ i))).2 ≤ 1 :=
  claim4_earlyExit (strL "i-b") (strL "https://ep.example.com") (strL "prof") (strL "eu-1")
    (fun _ => false)
    ⟨fun _ => false, true, true, true, fun _ => false, fun i => decide (1 ≤ i),
     strL "LOGTEXT", 7, strL "ts", strL "home"⟩
    49152 1 rfl rfl rfl (by decide) (by decide) (by decide) (fun i _ => rfl)

/-- Claim C5: `PruneDuplicates` groups the scanned forwards by target host
(each group being exactly the scan-order sublist of forwards with that
host), counts one kill for each successfully terminated member after the
first of each group of size > 1, returns 0 when every host has at most one
forward, and on three same-host forwards (ports 100, 101, 102) kills
exactly the last two and returns 2. -/
theorem claim5_pruneDuplicates :
    (∀ fs h items, ((h, items) ∈ byTarget fs ↔
        (items = fs.filter (fun f => f.targetHost == h) ∧ items ≠ []))) ∧
    (∀ fs kill, PruneDuplicates fs kill
        = ((byTarget fs).map (fun e =>
            if e.2.length ≤ 1 then 0
            else (e.2.drop 1).countP (fun f => kill f.pid))).sum) ∧
    (∀ fs kill, (∀ h, (fs.filter (fun f => f.targetHost == h)).length ≤ 1) →
        PruneDuplicates fs kill = 0) ∧
    (pruneVictims demo3
        = [⟨2, 101, strL "a.example.com", 443⟩, ⟨3, 102, strL "a.example.com", 443⟩] ∧
     PruneDuplicates demo3 (fun _ => true) = 2) := by
  have htotal : ∀ fs kill, PruneDuplicates fs kill
      = ((byTarget fs).map (fun e =>
          if e.2.length ≤ 1 then 0
          else (e.2.drop 1).countP (fun f => kill f.pid))).sum := by
    intro fs kill
    rw [PruneDuplicates, foldl_prune_total]
    omega
  refine ⟨mem_byTarget_iff, htotal, ?_, by decide, by decide⟩
  intro fs kill hone
  rw [htotal]
  apply List.sum_eq_zero
  intro x hx
  rcases List.mem_map.mp hx with ⟨e, he, hex⟩
  rcases e with ⟨h, items⟩
  rcases (mem_byTarget_iff fs h items).mp he with ⟨hitems, _⟩
  have hlen : items.length ≤ 1 := by rw [hitems]; exact hone h
  rw [← hex]
  simp [hlen]

/-- Witness for C5 at a concrete input: with no forwards at all the prune
count is 0. -/
theorem claim5_witness : PruneDuplicates [] (fun _ => true) = 0 :=
  claim5_pruneDuplicates.2.2.1 [] (fun _ => true) (fun h => by simp)

/-- Claim C6: within one `StartForward` run in which the launch is reached
and a `markInactive` callback was supplied, the `markInactive` event on the
allocated port is the very first event of the trace, strictly before the
launch event (which sits at index 3). -/
theorem claim6_markBeforeLaunch (bastionID targetHost profile region : List Char)
    (reserved : Nat → Bool) (env : SFEnv) (hmark : env.hasMarkCb = true)
    (argv : List (List Char))
    (hl : SFEvent.launch argv
        ∈ (startForward bastionID targetHost profile region reserved env).2) :
    ∃ port, FindAvailablePort reserved env.listening = some port ∧
      (startForward bastionID targetHost profile region reserved env).2[0]?
        = some (SFEvent.markInactive port) ∧
      (startForward bastionID targetHost profile region reserved env).2[3]?
        = some (SFEvent.launch argv) := by
  rcases startForward_trace bastionID targetHost profile region reserved env with
    htr | ⟨port, hfind, htr | htr⟩
  · rw [htr] at hl
    simp at hl
  · rw [htr] at hl
    simp [hmark] at hl
  · rw [htr] at hl
    simp only [hmark, if_true] at hl
    have hargv : argv = awsArgv bastionID
        (mkParams (goTrimPrefix targetHost (strL "https://")) port) profile region := by
      simpa using hl
    refine ⟨port, hfind, ?_, ?_⟩
    · rw [htr, hmark]
      rfl
    · rw [htr, hmark, hargv]
      rfl

/-- Witness for C6: a concrete all-successful run; the trace starts with
the markInactive event on the allocated port 49152 and launches at index 3. -/
theorem claim6_witness :
    ∃ port, FindAvailablePort (fun _ => false)
        (SFEnv.listening ⟨fun _ => false, true, true, true, fun _ => true, fun _ => false,
          strL "", 7, strL "ts", strL "home"⟩) = some port ∧
      (startForward (strL "i-b") (strL "https://ep.example.com") (strL "prof") (strL "eu-1")
          (fun _ => false)
          ⟨fun _ => false, true, true, true, fun _ => true, fun _ => false,
           strL "", 7, strL "ts", strL "home"⟩).2[0]?
        = some (SFEvent.markInactive port) ∧
      (startForward (strL "i-b") (strL "https://ep.example.com") (strL "prof") (strL "eu-1")
          (fun _ => false)
          ⟨fun _ => false, true, true, true, fun _ => true, fun _ => false,
           strL "", 7, strL "ts", strL "home"⟩).2[3]?
        = some (SFEvent.launch (awsArgv (strL "i-b")
            (mkParams (strL "ep.example.com") 49152) (strL "prof") (strL "eu-1"))) :=
  claim6_markBeforeLaunch (strL "i-b") (strL "https://ep.example.com") (strL "prof")
    (strL "eu-1") (fun _ => false)
    ⟨fun _ => false, true, true, true, fun _ => true, fun _ => false,
     strL "", 7, strL "ts", strL "home"⟩
    rfl
    (awsArgv (strL "i-b") (mkParams (strL "ep.example.com") 49152) (strL "prof") (strL "eu-1"))
    (by decide)

/-- Claim C7: the per-line parser on the given process-table line yields
`Forward{pid: 12345, localPort: 51000, targetHost: "a.example.com",
targetPort: 443}`; the scanner's 4-way substring retention filter (tool
name, subcommand, session-start verb, forwarding document identifier)
accepts a genuine launcher-produced line. -/
theorem claim7_parseLine :
    parseLine (strL "12345 forwardcli start-session --document-name ForwardSessionDoc --parameters host=a.example.com,portNumber=443,localPortNumber=51000")
      = some ⟨12345, 51000, strL "a.example.com", 443⟩ ∧
    lineFilter (strL "12345 aws ssm start-session --document-name AWS-StartPortForwardingSessionToRemoteHost --parameters host=a.example.com,portNumber=443,localPortNumber=51000")
      = true := by
  exact ⟨by decide, by decide⟩

/-- Claim C8: a line from which no host or no local port can be extracted
(in particular one missing `localPortNumber=`) is discarded by `parseLine`,
while a line whose `portNumber=` parameter is missing or unparsable yields
a Forward with target port defaulted to 443. -/
theorem claim8_parseLine_defaults :
    (∀ line, (extractParam (restOf line) hostKey = [] ∨
        extractParam (restOf line) localKey = []) →
      parseLine line = none) ∧
    (∀ line f, parseLine line = some f →
      (extractParam (restOf line) portKey = [] ∨
        goAtoi (extractParam (restOf line) portKey) = none) →
      f.targetPort = 443) := by
  constructor
  · intro line hext
    rcases hf : goFields line with _ | ⟨f0, _ | ⟨f1, fs⟩⟩
    · simp [parseLine, hf]
    · simp [parseLine, hf]
    · have hrest : restOf line = joinSpace (f1 :: fs) := by simp [restOf, hf]
      rw [hrest] at hext
      rcases hA : goAtoi f0 with _ | pid
      · simp [parseLine, hf, hA]
      · have hcond : ((extractParam (joinSpace (f1 :: fs)) hostKey).isEmpty
            || (extractParam (joinSpace (f1 :: fs)) localKey).isEmpty) = true := by
          rcases hext with he | he <;> simp [he]
        simp [parseLine, hf, hA, hcond]
  · intro line f hp hext
    rcases hf : goFields line with _ | ⟨f0, _ | ⟨f1, fs⟩⟩
    · simp [parseLine, hf] at hp
    · simp [parseLine, hf] at hp
    · have hrest : restOf line = joinSpace (f1 :: fs) := by simp [restOf, hf]
      rw [hrest] at hext
      rcases hA : goAtoi f0 with _ | pid
      · simp [parseLine, hf, hA] at hp
      · by_cases hcond : ((extractParam (joinSpace (f1 :: fs)) hostKey).isEmpty
            || (extractParam (joinSpace (f1 :: fs)) localKey).isEmpty) = true
        · simp [parseLine, hf, hA, hcond] at hp
        · rcases hL : goAtoi (extractParam (joinSpace (f1 :: fs)) localKey) with _ | lp
          · simp [parseLine, hf, hA, hcond, hL] at hp
          · have hps : parseLine line = some ⟨pid, lp,
                extractParam (joinSpace (f1 :: fs)) hostKey,
                if (extractParam (joinSpace (f1 :: fs)) portKey).isEmpty then 443
                else match goAtoi (extractParam (joinSpace (f1 :: fs)) portKey) with
                  | some q => q
                  | none => 443⟩ := by
              simp [parseLine, hf, hA, hcond, hL]
            rw [hps] at hp
            have hfe := Option.some.inj hp
            have htp : f.targetPort
                = (if (extractParam (joinSpace (f1 :: fs)) portKey).isEmpty then (443 : Int)
                  else match goAtoi (extractParam (joinSpace (f1 :: fs)) portKey) with
                    | some q => q
                    | none => 443) := by
              rw [← hfe]
            rw [htp]
            by_cases hpe : (extractParam (joinSpace (f1 :: fs)) portKey).isEmpty = true
            · simp [hpe]
            · rcases hext with he | he
              · exact absurd (by simp [he] :
                  (extractParam (joinSpace (f1 :: fs)) portKey).isEmpty = true) hpe
              · rw [if_neg hpe, he]

/-- Witness for C8: a line missing `localPortNumber=` is discarded, and a
line with host and local port but no `portNumber=` parses with target port
443. -/
theorem claim8_witness :
    parseLine (strL "12345 aws --parameters host=a,portNumber=443") = none ∧
    parseLine (strL "12345 aws --parameters host=a,localPortNumber=100")
      = some ⟨12345, 100, strL "a", 443⟩ ∧
    (parseLine (strL "12345 aws --parameters host=a,localPortNumber=100")).map
        (fun f => f.targetPort) = some 443 := by
  refine ⟨?_, ?_, ?_⟩
  · exact claim8_parseLine_defaults.1
      (strL "12345 aws --parameters host=a,portNumber=443") (Or.inr (by decide))
  · decide
  · have := claim8_parseLine_defaults.2
      (strL "12345 aws --parameters host=a,localPortNumber=100")
      ⟨12345, 100, strL "a", 443⟩ (by decide) (Or.inl (by decide))
    decide

/-- Counterexample to C9 as stated: the code names the session log
`ssm-port-<port>_<timestamp>.log`, not `forward-port-<port>_<timestamp>.log`
as the claim says. -/
theorem claim9_counterexample :
    logFileName 49152 (strL "2024-01-01_00-00-00")
        ≠ claimedLogFileName 49152 (strL "2024-01-01_00-00-00") ∧
    logFileName 49152 (strL "2024-01-01_00-00-00")
        = strL "ssm-port-49152_2024-01-01_00-00-00.log" := by
  exact ⟨by decide, by decide⟩

/-- Claim C9 (amended): the session log lives in the `logs` subdirectory of
the tool's cache directory `<home>/.cache/kube-ssm-proxy` and is named
`ssm-port-<port>_<timestamp>.log`; whenever `StartForward` creates a log
file, the trace also records the `MkdirAll` that creates the log directory
if absent. -/
theorem claim9_logPath (home : List Char) (p : Nat) (ts : List Char) :
    logPath home p ts = ssmLogDir home ++ '/' :: logFileName p ts ∧
    logFileName p ts = strL "ssm-port-" ++ natToDec p ++ '_' :: ts ++ strL ".log" ∧
    ssmLogDir home = home ++ strL "/.cache/kube-ssm-proxy/logs" ∧
    (∀ bastionID targetHost profile region reserved (env : SFEnv) path',
      SFEvent.createLog path'
          ∈ (startForward bastionID targetHost profile region reserved env).2 →
      SFEvent.mkdirAll (ssmLogDir env.home)
          ∈ (startForward bastionID targetHost profile region reserved env).2) := by
  refine ⟨rfl, rfl, ?_, ?_⟩
  · simp only [ssmLogDir, goJoin, List.append_assoc]
    rfl
  · intro bastionID targetHost profile region reserved env path' hc
    rcases startForward_trace bastionID targetHost profile region reserved env with
      htr | ⟨port, _, htr | htr⟩
    · rw [htr] at hc
      simp at hc
    · rw [htr]
      simp
    · rw [htr]
      simp

/-- Witness for C9 (amended): in a concrete successful run the trace
contains the `MkdirAll` of the log directory. -/
theorem claim9_witness :
    SFEvent.mkdirAll (ssmLogDir (strL "home"))
      ∈ (startForward (strL "i-b") (strL "https://ep.example.com") (strL "prof") (strL "eu-1")
          (fun _ => false)
          ⟨fun _ => false, true, true, true, fun _ => true, fun _ => false,
           strL "", 7, strL "ts", strL "home"⟩).2 :=
  (claim9_logPath (strL "home") 49152 (strL "ts")).2.2.2
    (strL "i-b") (strL "https://ep.example.com") (strL "prof") (strL "eu-1")
    (fun _ => false)
    ⟨fun _ => false, true, true, true, fun _ => true, fun _ => false,
     strL "", 7, strL "ts", strL "home"⟩
    (logPath (strL "home") 49152 (strL "ts"))
    (by decide)

/-- Counterexample to C10 as stated: on the claim's own command line (with
`localPortNumber=` preceding `portNumber=`), `parseLine` reports target
port 443 — the actual `portNumber=` value — not 51000 (the local-port
value the claim says is returned). -/
theorem claim10_counterexample :
    parseLine (strL "12345 aws ssm start-session --document-name AWS-StartPortForwardingSessionToRemoteHost --parameters localPortNumber=51000,portNumber=443,host=a.example.com")
      = some ⟨12345, 51000, strL "a.example.com", 443⟩ ∧
    (443 : Int) ≠ 51000 := by
  exact ⟨by decide, by decide⟩

/-- Claim C10 (amended): the raw substring search is case-sensitive, so
`portNumber=` (lowercase p) never matches inside `localPortNumber=`
(capital P); on the claim's command line the extraction returns the actual
`portNumber=` value `"443"` and the local port `"51000"`. -/
theorem claim10_caseSensitive :
    goIndex localKey portKey = none ∧
    extractParam (restOf (strL "12345 aws ssm start-session --document-name AWS-StartPortForwardingSessionToRemoteHost --parameters localPortNumber=51000,portNumber=443,host=a.example.com")) portKey
      = strL "443" ∧
    extractParam (restOf (strL "12345 aws ssm start-session --document-name AWS-StartPortForwardingSessionToRemoteHost --parameters localPortNumber=51000,portNumber=443,host=a.example.com")) localKey
      = strL "51000" := by
  refine ⟨by decide, by decide, by decide⟩

end KubeSsmProxy
